import Mathlib

/-
Shallow embedding of the order-matching core in src/implementation.py:
a price-time priority order book with immediate matching after every
insertion, and a fixed-size exchange that routes ticker symbols to
order books by hash modulo MAX_TICKERS.
-/

/-- Class TradeOrder: a buy or sell order. The linked-list next pointer
becomes list structure; quantities and prices are natural numbers. -/
structure TradeOrder where
  order_type : String
  ticker_symbol : String
  quantity : Nat
  price : Nat
deriving DecidableEq

/-- One trade event, as printed by match_orders: quantity shares of the
ticker at the resting sell price. -/
structure Trade where
  ticker_symbol : String
  price : Nat
  quantity : Nat
deriving DecidableEq

/-- The while-loop advance condition inside OrderBook._insert_sorted
(line 44): keep walking while the new order does not beat the current
node under the side ordering. -/
def insertCond (new : TradeOrder) (descending : Bool) (c : TradeOrder) : Bool :=
  (descending && decide (new.price ≤ c.price)) || (!descending && decide (new.price ≥ c.price))

/-- The scan loop of OrderBook._insert_sorted (lines 43 to 47): advance
while insertCond holds, then splice the new order in before the first
node it beats. -/
def insertLoop (new : TradeOrder) (descending : Bool) : List TradeOrder → List TradeOrder
  | [] => [new]
  | c :: rest =>
    if insertCond new descending c then
      c :: insertLoop new descending rest
    else
      new :: c :: rest

/-- OrderBook._insert_sorted (lines 37 to 48): prepend when the list is
empty or the new order beats the head, otherwise run the scan loop. -/
def insert_sorted (head : List TradeOrder) (new : TradeOrder) (descending : Bool) : List TradeOrder :=
  match head with
  | [] => [new]
  | h :: t =>
    if (descending && decide (new.price > h.price)) || (!descending && decide (new.price < h.price)) then
      new :: h :: t
    else
      insertLoop new descending (h :: t)

/-- Class OrderBook: the two sides for one ticker. The buy side is kept
descending by price, the sell side ascending. The lock field is
concurrency control and is modelled separately by the action model. -/
structure OrderBook where
  buy_orders : List TradeOrder
  sell_orders : List TradeOrder
deriving DecidableEq

/-- One iteration of the matching loop body (lines 54 to 70) on head
orders b and s with tails bt and st: both head quantities drop by the
matched quantity, and a head reaching quantity zero is removed. -/
def match_step (b s : TradeOrder) (bt st : List TradeOrder) : List TradeOrder × List TradeOrder :=
  let m := min b.quantity s.quantity
  ((if b.quantity - m = 0 then bt else { b with quantity := b.quantity - m } :: bt),
   (if s.quantity - m = 0 then st else { s with quantity := s.quantity - m } :: st))

/-- The while loop of OrderBook.match_orders (lines 53 to 70) with an
explicit fuel bound: while both sides are nonempty and the best buy
price is at least the best sell price, emit one trade at the resting
sell price for the minimum of the two head quantities and adjust the
heads by match_step. -/
def match_loop : Nat → List TradeOrder → List TradeOrder → List TradeOrder × List TradeOrder × List Trade
  | 0, buys, sells => (buys, sells, [])
  | fuel + 1, buys, sells =>
    match buys, sells with
    | b :: bt, s :: st =>
      if s.price ≤ b.price then
        let next := match_step b s bt st
        let r := match_loop fuel next.1 next.2
        (r.1, r.2.1, ⟨b.ticker_symbol, s.price, min b.quantity s.quantity⟩ :: r.2.2)
      else
        (b :: bt, s :: st, [])
    | bs, ss => (bs, ss, [])

/-- OrderBook.match_orders (lines 50 to 70): run the matching loop to
completion. Every iteration removes at least one order from the book,
so the combined length of the two sides bounds the iteration count and
serves as fuel. Returns the updated book and the emitted trade events
in chronological order. -/
def OrderBook.match_orders (bk : OrderBook) : OrderBook × List Trade :=
  let r := match_loop (bk.buy_orders.length + bk.sell_orders.length) bk.buy_orders bk.sell_orders
  (⟨r.1, r.2.1⟩, r.2.2)

/-- OrderBook.add_order (lines 24 to 35): build the new order, insert it
into its side keeping the sort, then match immediately. -/
def OrderBook.add_order (bk : OrderBook) (order_type ticker_symbol : String) (quantity price : Nat) : OrderBook × List Trade :=
  let new : TradeOrder := ⟨order_type, ticker_symbol, quantity, price⟩
  let bk1 : OrderBook :=
    if order_type = "Buy" then
      ⟨insert_sorted bk.buy_orders new true, bk.sell_orders⟩
    else
      ⟨bk.buy_orders, insert_sorted bk.sell_orders new false⟩
  OrderBook.match_orders bk1

/-- Total number of supported stocks (MAX_TICKERS, line 6). -/
def MAX_TICKERS : Nat := 1024

/-- Class StockExchange (lines 72 to 80): a fixed array of MAX_TICKERS
order books, modelled as a function from indices to books. -/
structure StockExchange where
  order_books : Fin MAX_TICKERS → OrderBook

/-- The ticker lookup of StockExchange.add_order (line 79): the Python
builtin hash is process dependent, so it is taken as a parameter; the
slot is its value modulo MAX_TICKERS, with no collision resolution. -/
def ticker_index (hash : String → Nat) (ticker_symbol : String) : Fin MAX_TICKERS :=
  ⟨hash ticker_symbol % MAX_TICKERS, Nat.mod_lt _ (by decide)⟩

/-- StockExchange.add_order (lines 77 to 80): route to the slot of the
ticker and submit there. No validation of any argument is performed. -/
def StockExchange.add_order (hash : String → Nat) (ex : StockExchange) (order_type ticker_symbol : String) (quantity price : Nat) : StockExchange × List Trade :=
  let i := ticker_index hash ticker_symbol
  let r := (ex.order_books i).add_order order_type ticker_symbol quantity price
  (⟨Function.update ex.order_books i r.1⟩, r.2)

/-- The loop guard of match_orders (line 53): both sides nonempty and
best buy price at least best sell price. -/
def crossTop : List TradeOrder → List TradeOrder → Bool
  | b :: _, s :: _ => decide (s.price ≤ b.price)
  | _, _ => false

/-- A book side built by a sequence of inserts starting empty. -/
def buildSide (descending : Bool) (orders : List TradeOrder) : List TradeOrder :=
  orders.foldl (fun l o => insert_sorted l o descending) []

/-- Buy-side ordering: non-increasing price from head to tail. -/
def sortedDesc (l : List TradeOrder) : Prop :=
  l.Pairwise (fun a b => b.price ≤ a.price)

/-- Sell-side ordering: non-decreasing price from head to tail. -/
def sortedAsc (l : List TradeOrder) : Prop :=
  l.Pairwise (fun a b => a.price ≤ b.price)

/-- Total resident quantity on one side. -/
def sideQty (l : List TradeOrder) : Nat := (l.map (·.quantity)).sum

/-- Total resident quantity of a book, both sides combined. -/
def bookQty (bk : OrderBook) : Nat := sideQty bk.buy_orders + sideQty bk.sell_orders

/-- Sum of the quantities of a list of trade events. -/
def tradesQty (ts : List Trade) : Nat := (ts.map (·.quantity)).sum

/-- The result side is the original side with some orders consumed
strictly from the front: a prefix is gone and the new head order may in
addition have its quantity partially reduced. -/
def frontConsumed (orig res : List TradeOrder) : Prop :=
  ∃ k, res = orig.drop k ∨
    ∃ o t q, orig.drop k = o :: t ∧ 0 < q ∧ q < o.quantity ∧ res = { o with quantity := q } :: t

/-- Book states reachable from an empty book by a sequence of valid
submissions: known side, positive quantity and price, nonempty symbol. -/
inductive Reachable : OrderBook → Prop
  | empty : Reachable ⟨[], []⟩
  | submit (bk : OrderBook) (ot sym : String) (q p : Nat) :
      Reachable bk → (ot = "Buy" ∨ ot = "Sell") → 0 < q → 0 < p → sym ≠ "" →
      Reachable (bk.add_order ot sym q p).1

/-
Concurrency model for add_order. The code takes the per-book lock twice
per submission: once around the insertion (lines 28 to 32) and once,
separately, inside match_orders (line 52). A submission is therefore a
sequence of two atomic actions, and concurrent submissions to the same
book execute some interleaving of their action sequences.
-/

/-- One atomic critical section of a submission: the locked insertion of
add_order, or the locked matching pass of match_orders. -/
inductive MAction where
  | insStep (order_type ticker_symbol : String) (quantity price : Nat)
  | matchStep
deriving DecidableEq

/-- Effect of one atomic critical section on the book. -/
def applyAction (bk : OrderBook) : MAction → OrderBook
  | .insStep ot sym q p =>
    if ot = "Buy" then
      ⟨insert_sorted bk.buy_orders ⟨ot, sym, q, p⟩ true, bk.sell_orders⟩
    else
      ⟨bk.buy_orders, insert_sorted bk.sell_orders ⟨ot, sym, q, p⟩ false⟩
  | .matchStep => bk.match_orders.1

/-- The two atomic actions that one add_order call performs in order:
insert under the lock, release it, then match under the lock. -/
def submission (order_type ticker_symbol : String) (quantity price : Nat) : List MAction :=
  [MAction.insStep order_type ticker_symbol quantity price, MAction.matchStep]

/-- Run a schedule of thread-tagged actions against a book. -/
def runActions (bk : OrderBook) (sched : List (Bool × MAction)) : OrderBook :=
  sched.foldl (fun b a => applyAction b a.2) bk

/-- A schedule is an interleaving of two per-thread action sequences:
each thread keeps the order of its own actions. -/
inductive Interleaving {α : Type} : List α → List α → List α → Prop
  | nil : Interleaving [] [] []
  | left (x : α) {xs ys zs : List α} :
      Interleaving xs ys zs → Interleaving (x :: xs) ys (x :: zs)
  | right (y : α) {xs ys zs : List α} :
      Interleaving xs ys zs → Interleaving xs (y :: ys) (y :: zs)

/-- Tag every action of a sequence with its thread identifier. -/
def tagThread (th : Bool) (acts : List MAction) : List (Bool × MAction) :=
  acts.map (fun a => (th, a))

/-
Basic lemmas about the insertion routine.
-/

lemma insert_sorted_eq_insertLoop (l : List TradeOrder) (new : TradeOrder) (d : Bool) :
    insert_sorted l new d = insertLoop new d l := by
  cases l with
  | nil => rfl
  | cons h t =>
    cases d with
    | false =>
      by_cases hc : new.price < h.price
      · have : insertCond new false h = false := by
          simp [insertCond]; omega
        simp [insert_sorted, insertLoop, hc, this]
      · have : insertCond new false h = true := by
          simp [insertCond]; omega
        simp [insert_sorted, insertLoop, hc, this]
    | true =>
      by_cases hc : h.price < new.price
      · have : insertCond new true h = false := by
          simp [insertCond]; omega
        simp [insert_sorted, insertLoop, hc, this]
      · have : insertCond new true h = true := by
          simp [insertCond]; omega
        simp [insert_sorted, insertLoop, hc, this]

lemma insertLoop_eq_takeWhile (new : TradeOrder) (d : Bool) :
    ∀ l : List TradeOrder,
      insertLoop new d l =
        l.takeWhile (insertCond new d) ++ new :: l.dropWhile (insertCond new d) := by
  intro l
  induction l with
  | nil => rfl
  | cons c rest ih =>
    by_cases hc : insertCond new d c = true
    · simp [insertLoop, hc, List.takeWhile_cons, List.dropWhile_cons, ih]
    · simp [insertLoop, hc, List.takeWhile_cons, List.dropWhile_cons]

lemma insertLoop_cons_pos {new c : TradeOrder} {d : Bool} {rest : List TradeOrder}
    (hc : insertCond new d c = true) :
    insertLoop new d (c :: rest) = c :: insertLoop new d rest := by
  simp [insertLoop, hc]

lemma insertLoop_cons_neg {new c : TradeOrder} {d : Bool} {rest : List TradeOrder}
    (hc : insertCond new d c = false) :
    insertLoop new d (c :: rest) = new :: c :: rest := by
  simp [insertLoop, hc]

lemma mem_insertLoop {x new : TradeOrder} {d : Bool} :
    ∀ {l : List TradeOrder}, x ∈ insertLoop new d l ↔ x = new ∨ x ∈ l := by
  intro l
  induction l with
  | nil => simp [insertLoop]
  | cons c rest ih =>
    by_cases hc : insertCond new d c = true
    · rw [insertLoop_cons_pos hc]
      simp [ih]
      tauto
    · rw [insertLoop_cons_neg (by simpa using hc)]
      simp

lemma sortedDesc_insertLoop {l : List TradeOrder} (new : TradeOrder)
    (hs : sortedDesc l) : sortedDesc (insertLoop new true l) := by
  induction l with
  | nil => simp [insertLoop, sortedDesc]
  | cons c rest ih =>
    rw [sortedDesc, List.pairwise_cons] at hs
    by_cases hc : insertCond new true c = true
    · have hnc : new.price ≤ c.price := by
        simpa [insertCond] using hc
      rw [insertLoop_cons_pos hc, sortedDesc, List.pairwise_cons]
      refine ⟨?_, ih hs.2⟩
      intro x hx
      rcases mem_insertLoop.1 hx with rfl | hx
      · exact hnc
      · exact hs.1 x hx
    · have hnc : c.price < new.price := by
        simp [insertCond] at hc
        omega
      rw [insertLoop_cons_neg (by simpa using hc), sortedDesc, List.pairwise_cons]
      constructor
      · intro x hx
        rcases List.mem_cons.1 hx with rfl | hx
        · omega
        · have := hs.1 x hx; omega
      · rw [List.pairwise_cons]; exact hs

lemma sortedAsc_insertLoop {l : List TradeOrder} (new : TradeOrder)
    (hs : sortedAsc l) : sortedAsc (insertLoop new false l) := by
  induction l with
  | nil => simp [insertLoop, sortedAsc]
  | cons c rest ih =>
    rw [sortedAsc, List.pairwise_cons] at hs
    by_cases hc : insertCond new false c = true
    · have hnc : c.price ≤ new.price := by
        simpa [insertCond] using hc
      rw [insertLoop_cons_pos hc, sortedAsc, List.pairwise_cons]
      refine ⟨?_, ih hs.2⟩
      intro x hx
      rcases mem_insertLoop.1 hx with rfl | hx
      · exact hnc
      · exact hs.1 x hx
    · have hnc : new.price < c.price := by
        simp [insertCond] at hc
        omega
      rw [insertLoop_cons_neg (by simpa using hc), sortedAsc, List.pairwise_cons]
      constructor
      · intro x hx
        rcases List.mem_cons.1 hx with rfl | hx
        · omega
        · have := hs.1 x hx; omega
      · rw [List.pairwise_cons]; exact hs

lemma sortedDesc_buildSide_aux :
    ∀ (orders : List TradeOrder) (l : List TradeOrder), sortedDesc l →
      sortedDesc (orders.foldl (fun acc o => insert_sorted acc o true) l) := by
  intro orders
  induction orders with
  | nil => intro l hl; simpa using hl
  | cons o rest ih =>
    intro l hl
    simp only [List.foldl_cons]
    exact ih _ (by rw [insert_sorted_eq_insertLoop]; exact sortedDesc_insertLoop o hl)

lemma sortedAsc_buildSide_aux :
    ∀ (orders : List TradeOrder) (l : List TradeOrder), sortedAsc l →
      sortedAsc (orders.foldl (fun acc o => insert_sorted acc o false) l) := by
  intro orders
  induction orders with
  | nil => intro l hl; simpa using hl
  | cons o rest ih =>
    intro l hl
    simp only [List.foldl_cons]
    exact ih _ (by rw [insert_sorted_eq_insertLoop]; exact sortedAsc_insertLoop o hl)

lemma takeWhile_eq_filter_of_pairwise {P : TradeOrder → Bool} {r : TradeOrder → TradeOrder → Prop}
    (hmono : ∀ x y, r x y → P x = false → P y = false) :
    ∀ {l : List TradeOrder}, l.Pairwise r →
      l.takeWhile P = l.filter P ∧ l.dropWhile P = l.filter (fun c => !P c) := by
  intro l
  induction l with
  | nil => simp
  | cons c rest ih =>
    intro hl
    rw [List.pairwise_cons] at hl
    by_cases hc : P c = true
    · have := ih hl.2
      simp [List.takeWhile_cons, List.dropWhile_cons, List.filter_cons, hc, this]
    · have hc' : P c = false := by simpa using hc
      have hall : ∀ x ∈ rest, P x = false := fun x hx => hmono c x (hl.1 x hx) hc'
      constructor
      · rw [List.takeWhile_cons]
        simp only [hc', if_false]
        rw [List.filter_cons]
        simp only [hc']
        rw [List.filter_eq_nil_iff.2 (by intro a ha; simp [hall a ha])]
        simp
      · rw [List.dropWhile_cons]
        simp only [hc', if_false]
        rw [List.filter_cons]
        simp only [hc', Bool.not_false, if_true]
        have hrest : List.filter (fun c => !P c) rest = rest := by
          apply List.filter_eq_self.2
          intro a ha
          rw [hall a ha]
          rfl
        rw [hrest, if_neg (by simp)]

/-
Lemmas about the matching loop.
-/

lemma match_loop_no_cross {buys sells : List TradeOrder}
    (h : crossTop buys sells = false) :
    ∀ fuel, match_loop fuel buys sells = (buys, sells, []) := by
  intro fuel
  cases fuel with
  | zero => rfl
  | succ f =>
    cases buys with
    | nil => rfl
    | cons b bt =>
      cases sells with
      | nil => rfl
      | cons s st =>
        have hng : ¬ s.price ≤ b.price := by
          simpa [crossTop] using h
        simp [match_loop, hng]

lemma match_step_fst (b s : TradeOrder) (bt st : List TradeOrder) :
    (match_step b s bt st).1 =
      if b.quantity - min b.quantity s.quantity = 0 then bt
      else { b with quantity := b.quantity - min b.quantity s.quantity } :: bt := rfl

lemma match_step_snd (b s : TradeOrder) (bt st : List TradeOrder) :
    (match_step b s bt st).2 =
      if s.quantity - min b.quantity s.quantity = 0 then st
      else { s with quantity := s.quantity - min b.quantity s.quantity } :: st := rfl

lemma sideQty_cons (o : TradeOrder) (l : List TradeOrder) :
    sideQty (o :: l) = o.quantity + sideQty l := by
  simp [sideQty]

lemma min_eq_or (a b : Nat) : min a b = a ∨ min a b = b := by
  rcases le_total a b with h | h
  · exact Or.inl (Nat.min_eq_left h)
  · exact Or.inr (Nat.min_eq_right h)

lemma match_step_length (b s : TradeOrder) (bt st : List TradeOrder) :
    (match_step b s bt st).1.length + (match_step b s bt st).2.length <
      (b :: bt).length + (s :: st).length := by
  have h4 := min_eq_or b.quantity s.quantity
  rw [match_step_fst, match_step_snd]
  by_cases hb : b.quantity - min b.quantity s.quantity = 0 <;>
    by_cases hs : s.quantity - min b.quantity s.quantity = 0 <;>
      simp [hb, hs, List.length_cons] <;> omega

lemma match_step_qty (b s : TradeOrder) (bt st : List TradeOrder) :
    sideQty (b :: bt) = min b.quantity s.quantity + sideQty (match_step b s bt st).1 ∧
    sideQty (s :: st) = min b.quantity s.quantity + sideQty (match_step b s bt st).2 := by
  have h1 : min b.quantity s.quantity ≤ b.quantity := Nat.min_le_left _ _
  have h2 : min b.quantity s.quantity ≤ s.quantity := Nat.min_le_right _ _
  rw [match_step_fst, match_step_snd]
  constructor
  · by_cases hb : b.quantity - min b.quantity s.quantity = 0 <;>
      simp [hb, sideQty_cons] <;> omega
  · by_cases hs : s.quantity - min b.quantity s.quantity = 0 <;>
      simp [hs, sideQty_cons] <;> omega

lemma match_loop_succ_cross {f : Nat} {b s : TradeOrder} {bt st : List TradeOrder}
    (h : s.price ≤ b.price) :
    match_loop (f + 1) (b :: bt) (s :: st) =
      ((match_loop f (match_step b s bt st).1 (match_step b s bt st).2).1,
       (match_loop f (match_step b s bt st).1 (match_step b s bt st).2).2.1,
       ⟨b.ticker_symbol, s.price, min b.quantity s.quantity⟩ ::
         (match_loop f (match_step b s bt st).1 (match_step b s bt st).2).2.2) := by
  simp [match_loop, h]

lemma match_loop_guard_false :
    ∀ (fuel : Nat) (buys sells : List TradeOrder), buys.length + sells.length ≤ fuel →
      crossTop (match_loop fuel buys sells).1 (match_loop fuel buys sells).2.1 = false := by
  intro fuel
  induction fuel with
  | zero =>
    intro buys sells h
    have hb : buys = [] := List.eq_nil_of_length_eq_zero (by omega)
    have hs : sells = [] := List.eq_nil_of_length_eq_zero (by omega)
    subst hb; subst hs; rfl
  | succ f ih =>
    intro buys sells h
    cases buys with
    | nil =>
      cases sells with
      | nil => rfl
      | cons s st => rfl
    | cons b bt =>
      cases sells with
      | nil => rfl
      | cons s st =>
        by_cases hg : s.price ≤ b.price
        · rw [match_loop_succ_cross hg]
          have hlt := match_step_length b s bt st
          exact ih _ _ (by simp only [List.length_cons] at h hlt ⊢; omega)
        · have hnc : crossTop (b :: bt) (s :: st) = false := by
            simp [crossTop]; omega
          rw [match_loop_no_cross hnc]
          exact hnc

lemma match_loop_fuel :
    ∀ (f g : Nat) (buys sells : List TradeOrder),
      buys.length + sells.length ≤ f → buys.length + sells.length ≤ g →
      match_loop f buys sells = match_loop g buys sells := by
  intro f
  induction f with
  | zero =>
    intro g buys sells hf hg
    have hb : buys = [] := List.eq_nil_of_length_eq_zero (by omega)
    have hs : sells = [] := List.eq_nil_of_length_eq_zero (by omega)
    subst hb; subst hs
    cases g <;> rfl
  | succ f ih =>
    intro g buys sells hf hg
    cases g with
    | zero =>
      have hb : buys = [] := List.eq_nil_of_length_eq_zero (by omega)
      have hs : sells = [] := List.eq_nil_of_length_eq_zero (by omega)
      subst hb; subst hs
      rfl
    | succ g' =>
      cases buys with
      | nil =>
        cases sells with
        | nil => rfl
        | cons s st => rfl
      | cons b bt =>
        cases sells with
        | nil => rfl
        | cons s st =>
          by_cases hgd : s.price ≤ b.price
          · rw [match_loop_succ_cross hgd, match_loop_succ_cross hgd]
            have hlt := match_step_length b s bt st
            rw [ih g' _ _ (by simp only [List.length_cons] at hf hlt ⊢; omega)
                (by simp only [List.length_cons] at hg hlt ⊢; omega)]
          · simp [match_loop, hgd]

lemma tradesQty_cons (t : Trade) (ts : List Trade) :
    tradesQty (t :: ts) = t.quantity + tradesQty ts := by
  simp [tradesQty]

lemma match_loop_trades_length :
    ∀ (fuel : Nat) (buys sells : List TradeOrder),
      (match_loop fuel buys sells).2.2.length ≤ buys.length + sells.length := by
  intro fuel
  induction fuel with
  | zero => intro buys sells; simp [match_loop]
  | succ f ih =>
    intro buys sells
    cases buys with
    | nil =>
      cases sells with
      | nil => simp [match_loop]
      | cons s st => simp [match_loop]
    | cons b bt =>
      cases sells with
      | nil => simp [match_loop]
      | cons s st =>
        by_cases hg : s.price ≤ b.price
        · rw [match_loop_succ_cross hg]
          have h1 := ih (match_step b s bt st).1 (match_step b s bt st).2
          have h2 := match_step_length b s bt st
          simp only [List.length_cons] at h1 h2 ⊢
          omega
        · simp [match_loop, hg]

lemma match_loop_qty :
    ∀ (fuel : Nat) (buys sells : List TradeOrder),
      sideQty buys =
        tradesQty (match_loop fuel buys sells).2.2 + sideQty (match_loop fuel buys sells).1 ∧
      sideQty sells =
        tradesQty (match_loop fuel buys sells).2.2 + sideQty (match_loop fuel buys sells).2.1 := by
  intro fuel
  induction fuel with
  | zero => intro buys sells; simp [match_loop, tradesQty]
  | succ f ih =>
    intro buys sells
    cases buys with
    | nil =>
      cases sells with
      | nil => simp [match_loop, tradesQty]
      | cons s st => simp [match_loop, tradesQty]
    | cons b bt =>
      cases sells with
      | nil => simp [match_loop, tradesQty]
      | cons s st =>
        by_cases hg : s.price ≤ b.price
        · rw [match_loop_succ_cross hg]
          have h1 := ih (match_step b s bt st).1 (match_step b s bt st).2
          have h2 := match_step_qty b s bt st
          simp only [tradesQty_cons] at h1 h2 ⊢
          omega
        · simp [match_loop, hg, tradesQty]

lemma match_loop_price_mem :
    ∀ (fuel : Nat) (buys sells : List TradeOrder) (t : Trade),
      t ∈ (match_loop fuel buys sells).2.2 → t.price ∈ sells.map (·.price) := by
  intro fuel
  induction fuel with
  | zero => intro buys sells t ht; simp [match_loop] at ht
  | succ f ih =>
    intro buys sells t ht
    cases buys with
    | nil =>
      cases sells with
      | nil => simp [match_loop] at ht
      | cons s st => simp [match_loop] at ht
    | cons b bt =>
      cases sells with
      | nil => simp [match_loop] at ht
      | cons s st =>
        by_cases hg : s.price ≤ b.price
        · rw [match_loop_succ_cross hg] at ht
          rcases List.mem_cons.1 ht with rfl | ht
          · simp
          · have hmem := ih _ _ t ht
            rw [match_step_snd] at hmem
            by_cases hz : s.quantity - min b.quantity s.quantity = 0
            · rw [if_pos hz] at hmem
              simp only [List.map_cons]
              exact List.mem_cons_of_mem _ hmem
            · rw [if_neg hz] at hmem
              simpa using hmem
        · simp [match_loop, hg] at ht

lemma frontConsumed_refl (l : List TradeOrder) : frontConsumed l l :=
  ⟨0, Or.inl rfl⟩

lemma frontConsumed_cons {o : TradeOrder} {t res : List TradeOrder}
    (h : frontConsumed t res) : frontConsumed (o :: t) res := by
  rcases h with ⟨k, h | ⟨o', t', q, hdrop, hq0, hqlt, heq⟩⟩
  · exact ⟨k + 1, Or.inl (by simpa using h)⟩
  · exact ⟨k + 1, Or.inr ⟨o', t', q, by simpa using hdrop, hq0, hqlt, heq⟩⟩

lemma frontConsumed_reduce {o : TradeOrder} {t res : List TradeOrder} {q : Nat}
    (hq0 : 0 < q) (hqlt : q < o.quantity)
    (h : frontConsumed ({ o with quantity := q } :: t) res) : frontConsumed (o :: t) res := by
  rcases h with ⟨k, h | ⟨o', t', q', hdrop, hq0', hqlt', heq⟩⟩
  · cases k with
    | zero =>
      exact ⟨0, Or.inr ⟨o, t, q, rfl, hq0, hqlt, by simpa using h⟩⟩
    | succ k' =>
      simp only [List.drop_succ_cons] at h
      exact frontConsumed_cons ⟨k', Or.inl h⟩
  · cases k with
    | zero =>
      simp only [List.drop_zero] at hdrop
      have ho' : { o with quantity := q } = o' := (List.cons_eq_cons.1 hdrop).1
      have ht' : t = t' := (List.cons_eq_cons.1 hdrop).2
      subst ht'
      refine ⟨0, Or.inr ⟨o, t, q', rfl, hq0', ?_, ?_⟩⟩
      · rw [← ho'] at hqlt'
        simp at hqlt'
        omega
      · rw [heq, ← ho']
    | succ k' =>
      simp only [List.drop_succ_cons] at hdrop
      exact frontConsumed_cons ⟨k', Or.inr ⟨o', t', q', hdrop, hq0', hqlt', heq⟩⟩

lemma frontConsumed_match_step_fst {b s : TradeOrder} {bt st res : List TradeOrder}
    (h : frontConsumed (match_step b s bt st).1 res) : frontConsumed (b :: bt) res := by
  rw [match_step_fst] at h
  have hm1 : min b.quantity s.quantity ≤ b.quantity := Nat.min_le_left _ _
  by_cases hz : b.quantity - min b.quantity s.quantity = 0
  · rw [if_pos hz] at h
    exact frontConsumed_cons h
  · rw [if_neg hz] at h
    rcases Nat.eq_zero_or_pos (min b.quantity s.quantity) with hm0 | hmpos
    · have hbq : { b with quantity := b.quantity - min b.quantity s.quantity } = b := by
        rw [hm0]
        simp
      rwa [hbq] at h
    · exact frontConsumed_reduce (by omega) (by omega) h

lemma frontConsumed_match_step_snd {b s : TradeOrder} {bt st res : List TradeOrder}
    (h : frontConsumed (match_step b s bt st).2 res) : frontConsumed (s :: st) res := by
  rw [match_step_snd] at h
  have hm2 : min b.quantity s.quantity ≤ s.quantity := Nat.min_le_right _ _
  by_cases hz : s.quantity - min b.quantity s.quantity = 0
  · rw [if_pos hz] at h
    exact frontConsumed_cons h
  · rw [if_neg hz] at h
    rcases Nat.eq_zero_or_pos (min b.quantity s.quantity) with hm0 | hmpos
    · have hsq : { s with quantity := s.quantity - min b.quantity s.quantity } = s := by
        rw [hm0]
        simp
      rwa [hsq] at h
    · exact frontConsumed_reduce (by omega) (by omega) h

lemma match_loop_cross_fst {f : Nat} {b s : TradeOrder} {bt st : List TradeOrder}
    (h : s.price ≤ b.price) :
    (match_loop (f + 1) (b :: bt) (s :: st)).1 =
      (match_loop f (match_step b s bt st).1 (match_step b s bt st).2).1 := by
  rw [match_loop_succ_cross h]

lemma match_loop_cross_snd {f : Nat} {b s : TradeOrder} {bt st : List TradeOrder}
    (h : s.price ≤ b.price) :
    (match_loop (f + 1) (b :: bt) (s :: st)).2.1 =
      (match_loop f (match_step b s bt st).1 (match_step b s bt st).2).2.1 := by
  rw [match_loop_succ_cross h]

lemma match_loop_frontConsumed :
    ∀ (fuel : Nat) (buys sells : List TradeOrder),
      frontConsumed buys (match_loop fuel buys sells).1 ∧
      frontConsumed sells (match_loop fuel buys sells).2.1 := by
  intro fuel
  induction fuel with
  | zero => intro buys sells; exact ⟨frontConsumed_refl _, frontConsumed_refl _⟩
  | succ f ih =>
    intro buys sells
    cases buys with
    | nil =>
      cases sells with
      | nil => exact ⟨frontConsumed_refl _, frontConsumed_refl _⟩
      | cons s st => exact ⟨frontConsumed_refl _, frontConsumed_refl _⟩
    | cons b bt =>
      cases sells with
      | nil => exact ⟨frontConsumed_refl _, frontConsumed_refl _⟩
      | cons s st =>
        by_cases hg : s.price ≤ b.price
        · have hih := ih (match_step b s bt st).1 (match_step b s bt st).2
          constructor
          · rw [match_loop_cross_fst hg]
            exact frontConsumed_match_step_fst hih.1
          · rw [match_loop_cross_snd hg]
            exact frontConsumed_match_step_snd hih.2
        · rw [match_loop_no_cross (by simp [crossTop]; omega)]
          exact ⟨frontConsumed_refl _, frontConsumed_refl _⟩

lemma insertLoop_head (new : TradeOrder) (d : Bool) :
    ∀ l : List TradeOrder,
      (insertLoop new d l).head? = some new ∨ (insertLoop new d l).head? = l.head? := by
  intro l
  cases l with
  | nil => exact Or.inl rfl
  | cons c rest =>
    by_cases hc : insertCond new d c = true
    · rw [insertLoop_cons_pos hc]
      exact Or.inr rfl
    · rw [insertLoop_cons_neg (by simpa using hc)]
      exact Or.inl rfl

lemma crossTop_nil_left (sells : List TradeOrder) : crossTop [] sells = false := by
  cases sells <;> rfl

lemma crossTop_nil_right (buys : List TradeOrder) : crossTop buys [] = false := by
  cases buys <;> rfl

lemma crossTop_eq_false_cases {a b : List TradeOrder} (h : crossTop a b = false) :
    a = [] ∨ b = [] ∨ ∃ x y, a.head? = some x ∧ b.head? = some y ∧ x.price < y.price := by
  cases a with
  | nil => exact Or.inl rfl
  | cons x xs =>
    cases b with
    | nil => exact Or.inr (Or.inl rfl)
    | cons y ys =>
      refine Or.inr (Or.inr ⟨x, y, rfl, rfl, ?_⟩)
      simp [crossTop] at h
      omega

lemma match_orders_no_cross {bk : OrderBook}
    (h : crossTop bk.buy_orders bk.sell_orders = false) :
    bk.match_orders = (bk, []) := by
  unfold OrderBook.match_orders
  rw [match_loop_no_cross h]

lemma crossTop_add_order (bk : OrderBook) (ot sym : String) (q p : Nat) :
    crossTop (bk.add_order ot sym q p).1.buy_orders (bk.add_order ot sym q p).1.sell_orders =
      false := by
  by_cases hot : ot = "Buy"
  · simp only [OrderBook.add_order, OrderBook.match_orders, if_pos hot]
    exact match_loop_guard_false _ _ _ (le_refl _)
  · simp only [OrderBook.add_order, OrderBook.match_orders, if_neg hot]
    exact match_loop_guard_false _ _ _ (le_refl _)

lemma sideQty_append (a b : List TradeOrder) :
    sideQty (a ++ b) = sideQty a + sideQty b := by
  simp [sideQty]

lemma sideQty_insert_sorted (l : List TradeOrder) (new : TradeOrder) (d : Bool) :
    sideQty (insert_sorted l new d) = new.quantity + sideQty l := by
  rw [insert_sorted_eq_insertLoop, insertLoop_eq_takeWhile, sideQty_append, sideQty_cons]
  have hl : sideQty (l.takeWhile (insertCond new d)) + sideQty (l.dropWhile (insertCond new d)) =
      sideQty l := by
    rw [← sideQty_append, List.takeWhile_append_dropWhile]
  omega

/-
Claim theorems.
-/

/-- C1: for every sequence of valid submissions executed one at a time,
after any add_order completes, either the buy side is empty, or the
sell side is empty, or the best (head) buy price is strictly less than
the best (head) sell price. -/
theorem no_persistent_cross (bk : OrderBook) (h : Reachable bk) :
    bk.buy_orders = [] ∨ bk.sell_orders = [] ∨
      ∃ b s, bk.buy_orders.head? = some b ∧ bk.sell_orders.head? = some s ∧
        b.price < s.price := by
  cases h with
  | empty => exact Or.inl rfl
  | submit bk0 ot sym q p hr hot hq hp hsym =>
    exact crossTop_eq_false_cases (crossTop_add_order bk0 ot sym q p)

/-- Witness: no_persistent_cross applied to the book reached by one
valid submission of Sell 5 at 100 on the empty book. -/
theorem no_persistent_cross_witness :
    Reachable (OrderBook.add_order ⟨[], []⟩ ("Sell") ("X") 5 100).1 ∧
    ((OrderBook.add_order ⟨[], []⟩ ("Sell") ("X") 5 100).1.buy_orders = [] ∨
     (OrderBook.add_order ⟨[], []⟩ ("Sell") ("X") 5 100).1.sell_orders = [] ∨
     ∃ b s, (OrderBook.add_order ⟨[], []⟩ ("Sell") ("X") 5 100).1.buy_orders.head? = some b ∧
       (OrderBook.add_order ⟨[], []⟩ ("Sell") ("X") 5 100).1.sell_orders.head? = some s ∧
       b.price < s.price) := by
  have hr : Reachable (OrderBook.add_order ⟨[], []⟩ ("Sell") ("X") 5 100).1 :=
    Reachable.submit ⟨[], []⟩ ("Sell") ("X") 5 100 Reachable.empty (Or.inr rfl)
      (by decide) (by decide) (by decide)
  exact ⟨hr, no_persistent_cross _ hr⟩

/-- C2: every side built by a sequence of inserts is sorted by price
priority (buy non-increasing, sell non-decreasing); an insert lands
exactly after the orders the scan condition keeps, in particular after
every order of equal price, so equal-price orders keep arrival order;
and matching consumes a side strictly from the front, so of two
equal-price resting orders the earlier one is matched first. -/
theorem price_time_ordering :
    (∀ orders : List TradeOrder, sortedDesc (buildSide true orders)) ∧
    (∀ orders : List TradeOrder, sortedAsc (buildSide false orders)) ∧
    (∀ (l : List TradeOrder) (new : TradeOrder) (d : Bool),
        insert_sorted l new d =
          l.takeWhile (insertCond new d) ++ new :: l.dropWhile (insertCond new d)) ∧
    (∀ (orders : List TradeOrder) (new : TradeOrder) (d : Bool),
        insert_sorted (buildSide d orders) new d =
          (buildSide d orders).filter (insertCond new d) ++
            new :: (buildSide d orders).filter (fun c => !insertCond new d c)) ∧
    (∀ (fuel : Nat) (buys sells : List TradeOrder),
        frontConsumed buys (match_loop fuel buys sells).1 ∧
        frontConsumed sells (match_loop fuel buys sells).2.1) := by
  refine ⟨?_, ?_, ?_, ?_, match_loop_frontConsumed⟩
  · intro orders
    exact sortedDesc_buildSide_aux orders [] List.Pairwise.nil
  · intro orders
    exact sortedAsc_buildSide_aux orders [] List.Pairwise.nil
  · intro l new d
    rw [insert_sorted_eq_insertLoop, insertLoop_eq_takeWhile]
  · intro orders new d
    rw [insert_sorted_eq_insertLoop, insertLoop_eq_takeWhile]
    cases d with
    | true =>
      have hs : (buildSide true orders).Pairwise (fun a b => b.price ≤ a.price) :=
        sortedDesc_buildSide_aux orders [] List.Pairwise.nil
      have hmono : ∀ x y : TradeOrder, y.price ≤ x.price →
          insertCond new true x = false → insertCond new true y = false := by
        intro x y hxy hx
        simp [insertCond] at hx ⊢
        omega
      obtain ⟨h1, h2⟩ := takeWhile_eq_filter_of_pairwise hmono hs
      rw [h1, h2]
    | false =>
      have hs : (buildSide false orders).Pairwise (fun a b => a.price ≤ b.price) :=
        sortedAsc_buildSide_aux orders [] List.Pairwise.nil
      have hmono : ∀ x y : TradeOrder, x.price ≤ y.price →
          insertCond new false x = false → insertCond new false y = false := by
        intro x y hxy hx
        simp [insertCond] at hx ⊢
        omega
      obtain ⟨h1, h2⟩ := takeWhile_eq_filter_of_pairwise hmono hs
      rw [h1, h2]

/-- C3: every match emits a trade whose quantity is the minimum of the
two head quantities and whose price is the resting sell head price;
every emitted price comes from the sell side, never from the buy side
or the aggressor, whichever side was submitted last. -/
theorem trade_at_resting_sell_price :
    (∀ (fuel : Nat) (b s : TradeOrder) (bt st : List TradeOrder),
        s.price ≤ b.price →
          (match_loop (fuel + 1) (b :: bt) (s :: st)).2.2.head? =
            some ⟨b.ticker_symbol, s.price, min b.quantity s.quantity⟩) ∧
    (∀ (fuel : Nat) (buys sells : List TradeOrder) (t : Trade),
        t ∈ (match_loop fuel buys sells).2.2 → t.price ∈ sells.map (·.price)) := by
  constructor
  · intro fuel b s bt st h
    rw [match_loop_succ_cross h]
    rfl
  · exact match_loop_price_mem

/-- Witness: trade_at_resting_sell_price on Buy 8 at 102 crossing a
resting Sell 5 at 100. -/
theorem trade_at_resting_sell_price_witness :
    ((100 : Nat) ≤ 102 ∧
      (match_loop 1 [⟨"Buy", "X", 8, 102⟩] [⟨"Sell", "X", 5, 100⟩]).2.2.head? =
        some ⟨"X", 100, 5⟩) ∧
    ((⟨"X", 100, 5⟩ : Trade) ∈ (match_loop 1 [⟨"Buy", "X", 8, 102⟩] [⟨"Sell", "X", 5, 100⟩]).2.2 ∧
      (⟨"X", 100, 5⟩ : Trade).price ∈ [(⟨"Sell", "X", 5, 100⟩ : TradeOrder)].map (·.price)) := by
  refine ⟨⟨by decide, ?_⟩, ⟨by decide, ?_⟩⟩
  · exact trade_at_resting_sell_price.1 0 ⟨"Buy", "X", 8, 102⟩ ⟨"Sell", "X", 5, 100⟩ [] []
      (by decide)
  · exact trade_at_resting_sell_price.2 1 [⟨"Buy", "X", 8, 102⟩] [⟨"Sell", "X", 5, 100⟩]
      ⟨"X", 100, 5⟩ (by decide)

/-- C4: with Sell 5 at 100 and Sell 5 at 101 resting in that order and
an empty buy side, submitting Buy 8 at 102 emits exactly the trades
(100, 5) then (101, 3) and leaves only Sell 2 at 101 resting. -/
theorem scenario_three_partial_fills :
    (((⟨[], []⟩ : OrderBook).add_order ("Sell") ("X") 5 100).1.add_order ("Sell") ("X") 5
        101).1.add_order ("Buy") ("X") 8 102 =
      (⟨[], [⟨"Sell", "X", 2, 101⟩]⟩, [⟨"X", 100, 5⟩, ⟨"X", 101, 3⟩]) := by
  decide

/-- C5 counterexample: take the book as it stands right after the insert
phase of submitting Buy 10 at 100 against a resting Sell 10 at 100. The
matching phase then removes total quantity 20 from the book (10 from
each side) while the emitted trade quantities sum to 10, so the total
quantity removed from the book is not the emitted sum. -/
theorem total_removed_ne_trades_qty :
    bookQty (⟨[⟨"Buy", "X", 10, 100⟩], [⟨"Sell", "X", 10, 100⟩]⟩ : OrderBook) -
        bookQty (OrderBook.match_orders
          ⟨[⟨"Buy", "X", 10, 100⟩], [⟨"Sell", "X", 10, 100⟩]⟩).1 ≠
      tradesQty (OrderBook.match_orders
        ⟨[⟨"Buy", "X", 10, 100⟩], [⟨"Sell", "X", 10, 100⟩]⟩).2 := by
  decide

/-- C5 amended: each match subtracts the matched quantity from one buy
and one sell order, so the quantity removed from EACH side during the
matching phase of a submission equals the sum of the emitted trade
quantities, and the total removed from the whole book during one
add_order call is twice that sum. -/
theorem per_side_qty_conservation :
    (∀ bk : OrderBook,
        sideQty bk.buy_orders =
          tradesQty bk.match_orders.2 + sideQty bk.match_orders.1.buy_orders ∧
        sideQty bk.sell_orders =
          tradesQty bk.match_orders.2 + sideQty bk.match_orders.1.sell_orders) ∧
    (∀ (bk : OrderBook) (ot sym : String) (q p : Nat),
        bookQty bk + q =
          2 * tradesQty (bk.add_order ot sym q p).2 + bookQty (bk.add_order ot sym q p).1) := by
  constructor
  · intro bk
    unfold OrderBook.match_orders
    exact match_loop_qty _ _ _
  · intro bk ot sym q p
    by_cases hot : ot = "Buy"
    · simp only [OrderBook.add_order, OrderBook.match_orders, if_pos hot, bookQty]
      have h := match_loop_qty
        ((insert_sorted bk.buy_orders ⟨ot, sym, q, p⟩ true).length + bk.sell_orders.length)
        (insert_sorted bk.buy_orders ⟨ot, sym, q, p⟩ true) bk.sell_orders
      have hins : sideQty (insert_sorted bk.buy_orders ⟨ot, sym, q, p⟩ true) =
          q + sideQty bk.buy_orders :=
        sideQty_insert_sorted bk.buy_orders ⟨ot, sym, q, p⟩ true
      omega
    · simp only [OrderBook.add_order, OrderBook.match_orders, if_neg hot, bookQty]
      have h := match_loop_qty
        (bk.buy_orders.length + (insert_sorted bk.sell_orders ⟨ot, sym, q, p⟩ false).length)
        bk.buy_orders (insert_sorted bk.sell_orders ⟨ot, sym, q, p⟩ false)
      have hins : sideQty (insert_sorted bk.sell_orders ⟨ot, sym, q, p⟩ false) =
          q + sideQty bk.sell_orders :=
        sideQty_insert_sorted bk.sell_orders ⟨ot, sym, q, p⟩ false
      omega

/-- C6: the routing slot is the hash value modulo MAX_TICKERS with no
collision resolution, so whatever the hash function is, there exist two
distinct ticker symbols that resolve to the same order-book slot. -/
theorem distinct_symbols_share_slot (hash : String → Nat) :
    ∃ s1 s2 : String, s1 ≠ s2 ∧ ticker_index hash s1 = ticker_index hash s2 := by
  obtain ⟨a, b, hne, heq⟩ :=
    Fintype.exists_ne_map_eq_of_card_lt
      (fun i : Fin (MAX_TICKERS + 1) =>
        ticker_index hash (String.mk (List.replicate i.val 'a')))
      (by simp only [Fintype.card_fin]; norm_num [MAX_TICKERS])
  refine ⟨String.mk (List.replicate a.val 'a'), String.mk (List.replicate b.val 'a'), ?_, heq⟩
  intro hstr
  apply hne
  have hlen := congrArg String.length hstr
  simp only [String.length_mk, List.length_replicate] at hlen
  exact Fin.ext hlen

/-- C7: the exchange performs no input validation: submitting a
zero-quantity buy order on a fresh exchange leaves that order resting
in the routed book, so the invalid call is not rejected and the book
state changes. -/
theorem invalid_order_reaches_book (hash : String → Nat) :
    ((StockExchange.add_order hash ⟨fun _ => ⟨[], []⟩⟩ ("Buy") ("AAPL") 0 100).1.order_books
        (ticker_index hash ("AAPL"))).buy_orders = [⟨"Buy", "AAPL", 0, 100⟩] := by
  unfold StockExchange.add_order
  simp only [Function.update_same]
  rfl

/-- C8: the insert-then-match sequence is NOT indivisible: because the
lock is released between the insertion critical section and the
matching critical section, there is a valid interleaving of two
submissions to the same book in which the second thread runs its insert
on the crossed state left by the first thread after its insert but
before its match, observing a partially completed insert-match cycle. -/
theorem interleaved_submission_observes_cross :
    ∃ sched : List (Bool × MAction),
      Interleaving
        (tagThread false (submission ("Buy") ("X") 5 100))
        (tagThread true (submission ("Sell") ("X") 1 99)) sched ∧
      ∃ (k : Nat) (a : Bool × MAction) (rest : List (Bool × MAction)),
        sched.drop k = a :: rest ∧ a.1 = true ∧
        crossTop
          (runActions ⟨[], [⟨"Sell", "X", 5, 100⟩]⟩ (sched.take k)).buy_orders
          (runActions ⟨[], [⟨"Sell", "X", 5, 100⟩]⟩ (sched.take k)).sell_orders = true := by
  refine ⟨[(false, MAction.insStep ("Buy") ("X") 5 100),
           (true, MAction.insStep ("Sell") ("X") 1 99),
           (false, MAction.matchStep), (true, MAction.matchStep)],
          ?_, 1,
          (true, MAction.insStep ("Sell") ("X") 1 99),
          [(false, MAction.matchStep), (true, MAction.matchStep)],
          by decide, rfl, by decide⟩
  exact Interleaving.left _ (Interleaving.right _ (Interleaving.left _
    (Interleaving.right _ Interleaving.nil)))

/-- C9: on a book whose top is not crossed, submitting an order that
does not cross the best opposite price (vacuously when the opposite
side is empty) leaves the opposite side exactly unchanged and emits no
trade events. -/
theorem no_cross_submit_frame (bk : OrderBook) (sym : String) (q p : Nat)
    (hun : crossTop bk.buy_orders bk.sell_orders = false) :
    ((∀ sp ∈ bk.sell_orders.head?.map (·.price), p < sp) →
        (bk.add_order ("Buy") sym q p).1.sell_orders = bk.sell_orders ∧
        (bk.add_order ("Buy") sym q p).2 = []) ∧
    ((∀ bp ∈ bk.buy_orders.head?.map (·.price), bp < p) →
        (bk.add_order ("Sell") sym q p).1.buy_orders = bk.buy_orders ∧
        (bk.add_order ("Sell") sym q p).2 = []) := by
  constructor
  · intro hns
    have hbk1 : crossTop (insert_sorted bk.buy_orders ⟨("Buy"), sym, q, p⟩ true)
        bk.sell_orders = false := by
      cases hsell : bk.sell_orders with
      | nil => exact crossTop_nil_right _
      | cons s st =>
        have hps : p < s.price := by
          have := hns s.price
          simp [hsell] at this
          exact this
        cases hres : insert_sorted bk.buy_orders ⟨("Buy"), sym, q, p⟩ true with
        | nil => exact crossTop_nil_left _
        | cons hb tb =>
          have hh := insertLoop_head ⟨("Buy"), sym, q, p⟩ true bk.buy_orders
          rw [← insert_sorted_eq_insertLoop, hres] at hh
          have hblt : hb.price < s.price := by
            rcases hh with hh | hh
            · have hbe : hb = ⟨("Buy"), sym, q, p⟩ := by simpa using hh
              rw [hbe]
              exact hps
            · cases hbuy : bk.buy_orders with
              | nil => rw [hbuy] at hh; simp at hh
              | cons x xs =>
                rw [hbuy] at hh
                have hxb : hb = x := by simpa using hh
                rw [hbuy, hsell] at hun
                simp [crossTop] at hun
                rw [hxb]
                omega
          simp [crossTop]
          omega
    have hm := @match_orders_no_cross
      ⟨insert_sorted bk.buy_orders ⟨("Buy"), sym, q, p⟩ true, bk.sell_orders⟩ hbk1
    constructor
    · simp only [OrderBook.add_order, if_true]
      rw [hm]
    · simp only [OrderBook.add_order, if_true]
      rw [hm]
  · intro hbp
    have hbk1 : crossTop bk.buy_orders
        (insert_sorted bk.sell_orders ⟨("Sell"), sym, q, p⟩ false) = false := by
      cases hbuy : bk.buy_orders with
      | nil => exact crossTop_nil_left _
      | cons b bt =>
        have hpb : b.price < p := by
          have := hbp b.price
          simp [hbuy] at this
          exact this
        cases hres : insert_sorted bk.sell_orders ⟨("Sell"), sym, q, p⟩ false with
        | nil => exact crossTop_nil_right _
        | cons hs ts =>
          have hh := insertLoop_head ⟨("Sell"), sym, q, p⟩ false bk.sell_orders
          rw [← insert_sorted_eq_insertLoop, hres] at hh
          have hslt : b.price < hs.price := by
            rcases hh with hh | hh
            · have hse : hs = ⟨("Sell"), sym, q, p⟩ := by simpa using hh
              rw [hse]
              exact hpb
            · cases hsell : bk.sell_orders with
              | nil => rw [hsell] at hh; simp at hh
              | cons y ys =>
                rw [hsell] at hh
                have hys : hs = y := by simpa using hh
                rw [hbuy, hsell] at hun
                simp [crossTop] at hun
                rw [hys]
                omega
          simp [crossTop]
          omega
    have hm := @match_orders_no_cross
      ⟨bk.buy_orders, insert_sorted bk.sell_orders ⟨("Sell"), sym, q, p⟩ false⟩ hbk1
    constructor
    · simp only [OrderBook.add_order]
      rw [if_neg (show ¬("Sell" : String) = "Buy" by decide), hm]
    · simp only [OrderBook.add_order]
      rw [if_neg (show ¬("Sell" : String) = "Buy" by decide), hm]

/-- Witness: no_cross_submit_frame on a book resting Buy 5 at 90 and
Sell 5 at 100, submitting Buy 3 at 95 and Sell 3 at 95. -/
theorem no_cross_submit_frame_witness :
    crossTop [⟨"Buy", "X", 5, 90⟩] [⟨"Sell", "X", 5, 100⟩] = false ∧
    ((OrderBook.add_order ⟨[⟨"Buy", "X", 5, 90⟩], [⟨"Sell", "X", 5, 100⟩]⟩
        ("Buy") ("X") 3 95).1.sell_orders = [⟨"Sell", "X", 5, 100⟩] ∧
      (OrderBook.add_order ⟨[⟨"Buy", "X", 5, 90⟩], [⟨"Sell", "X", 5, 100⟩]⟩
        ("Buy") ("X") 3 95).2 = []) ∧
    ((OrderBook.add_order ⟨[⟨"Buy", "X", 5, 90⟩], [⟨"Sell", "X", 5, 100⟩]⟩
        ("Sell") ("X") 3 95).1.buy_orders = [⟨"Buy", "X", 5, 90⟩] ∧
      (OrderBook.add_order ⟨[⟨"Buy", "X", 5, 90⟩], [⟨"Sell", "X", 5, 100⟩]⟩
        ("Sell") ("X") 3 95).2 = []) := by
  refine ⟨by decide, ?_, ?_⟩
  · exact (no_cross_submit_frame ⟨[⟨"Buy", "X", 5, 90⟩], [⟨"Sell", "X", 5, 100⟩]⟩
      ("X") 3 95 (by decide)).1 (by intro sp hsp; simp at hsp; omega)
  · exact (no_cross_submit_frame ⟨[⟨"Buy", "X", 5, 90⟩], [⟨"Sell", "X", 5, 100⟩]⟩
      ("X") 3 95 (by decide)).2 (by intro bp hbp; simp at hbp; omega)

/-- C10: the matching loop terminates on every book: the head order
with the smaller quantity is decremented to exactly zero and removed,
so every iteration strictly shrinks the combined resident order count;
hence the combined length of the two sides is enough fuel (more fuel
changes nothing) and the number of emitted trades is bounded by the
combined length. -/
theorem matching_terminates :
    (∀ (b s : TradeOrder) (bt st : List TradeOrder),
        (b.quantity ≤ s.quantity → (match_step b s bt st).1 = bt) ∧
        (s.quantity ≤ b.quantity → (match_step b s bt st).2 = st) ∧
        (match_step b s bt st).1.length + (match_step b s bt st).2.length <
          (b :: bt).length + (s :: st).length) ∧
    (∀ (fuel : Nat) (buys sells : List TradeOrder),
        buys.length + sells.length ≤ fuel →
          match_loop fuel buys sells = match_loop (buys.length + sells.length) buys sells ∧
          (match_loop fuel buys sells).2.2.length ≤ buys.length + sells.length) := by
  constructor
  · intro b s bt st
    refine ⟨?_, ?_, match_step_length b s bt st⟩
    · intro h
      rw [match_step_fst, Nat.min_eq_left h, Nat.sub_self]
      simp
    · intro h
      rw [match_step_snd, Nat.min_eq_right h, Nat.sub_self]
      simp
  · intro fuel buys sells h
    exact ⟨match_loop_fuel fuel _ buys sells h (le_refl _),
      match_loop_trades_length fuel buys sells⟩

/-- Witness: matching_terminates on a one-order-per-side book, Buy 5 at
100 against Sell 7 at 90, with surplus fuel 5. -/
theorem matching_terminates_witness :
    ((⟨"Buy", "X", 5, 100⟩ : TradeOrder).quantity ≤
        (⟨"Sell", "X", 7, 90⟩ : TradeOrder).quantity ∧
      (match_step ⟨"Buy", "X", 5, 100⟩ ⟨"Sell", "X", 7, 90⟩ [] []).1 = []) ∧
    ((2 : Nat) ≤ 5 ∧
      match_loop 5 [⟨"Buy", "X", 5, 100⟩] [⟨"Sell", "X", 7, 90⟩] =
        match_loop 2 [⟨"Buy", "X", 5, 100⟩] [⟨"Sell", "X", 7, 90⟩] ∧
      (match_loop 5 [⟨"Buy", "X", 5, 100⟩] [⟨"Sell", "X", 7, 90⟩]).2.2.length ≤ 2) := by
  refine ⟨⟨by decide, ?_⟩, by decide, ?_, ?_⟩
  · exact (matching_terminates.1 ⟨"Buy", "X", 5, 100⟩ ⟨"Sell", "X", 7, 90⟩ [] []).1 (by decide)
  · exact (matching_terminates.2 5 [⟨"Buy", "X", 5, 100⟩] [⟨"Sell", "X", 7, 90⟩]
      (by decide)).1
  · exact (matching_terminates.2 5 [⟨"Buy", "X", 5, 100⟩] [⟨"Sell", "X", 7, 90⟩]
      (by decide)).2
